import Mathlib

/-!
Shallow embedding of the easymake task runner (src/easymake/helpers.py and
src/easymake/make.py) and proofs about its variable-interpolation engine,
shell-command executor and CLI argument dispatcher.

Python values flowing through the program are modelled by the tagged union
`Value`; Python exceptions by `PyErr`; mutable state visible to the
interpolation engine (the `Globals` dictionary plus the diagnostics emitted
through `warnings.warn`) by `St`.  All recursion mirroring Python's
call-stack recursion is fuel-indexed: exhausting the fuel models Python's
`RecursionError` on cyclic `$a -> $b -> $a` references.
-/

/-- Python value: the duck-typed union that flows through the interpolation
engine and the JSON-ish decoders (floats are not exercised by any claim and
are omitted from the model). `none` is Python `None` / JSON `null`. -/
inductive Value where
  | str (s : String)
  | int (n : Int)
  | bool (b : Bool)
  | none
  | list (xs : List Value)
  | dict (xs : List (String × Value))

/-- Python exception classes raised (or caught) along the modelled paths. -/
inductive PyErr where
  | typeError
  | keyError
  | indexError
  | valueError
  | recursionError
  | stopIteration
  deriving DecidableEq, Repr

/-- The ordered `Globals` dictionary: insertion-ordered name-to-value map. -/
abbrev Store := List (String × Value)

/-- Process environment (`os.environ`), read-only. -/
abbrev EnvVars := List (String × String)

/-- State threaded through every `Globals` operation: the store itself
(threaded explicitly so that read-only-ness is a theorem, not a modelling
assumption) and the list of `warnings.warn` diagnostic messages emitted so
far, in order. -/
structure St where
  store : Store
  warns : List String

/-- First-match lookup in an insertion-ordered dict with unique keys. -/
def storeLookup : Store → String → Option Value
  | [], _ => Option.none
  | (k, v) :: rest, key => if k == key then some v else storeLookup rest key

/-- `os.environ.get`. -/
def envvGet : EnvVars → String → Option String
  | [], _ => Option.none
  | (k, v) :: rest, key => if k == key then some v else envvGet rest key

/-- Python-dict insertion: overwrite in place if the key exists (keeping its
original position), append otherwise. -/
def dictInsert (l : List (String × Value)) (k : String) (v : Value) : List (String × Value) :=
  if l.any (fun p => p.1 == k) then
    l.map (fun p => if p.1 == k then (k, v) else p)
  else l ++ [(k, v)]

/-- Lookup in an association list with Python-dict semantics (the binding
produced by the latest insertion wins). -/
def dictGet : List (String × Value) → String → Option Value
  | [], _ => Option.none
  | (k, v) :: rest, key =>
    match dictGet rest key with
    | some w => some w
    | Option.none => if k == key then some v else Option.none

/-- `dict.get(key)` as used by the binder: missing keys and stored `None`
both come back as Python `None`. -/
def pyDictGet (l : List (String × Value)) (key : String) : Value :=
  match dictGet l key with
  | some v => v
  | Option.none => Value.none

/-- Python `\w` on the ASCII strings this program handles. -/
def isWordChar (c : Char) : Bool :=
  c.isAlpha || c.isDigit || c == '_'

/-- `str.span`-style splitting: longest word-character run and the rest. -/
def spanWord : List Char → List Char × List Char
  | [] => ([], [])
  | c :: rest =>
    if isWordChar c then
      let (w, r) := spanWord rest
      (c :: w, r)
    else ([], c :: rest)

def isQuoteChar (c : Char) : Bool := c == '"' || c == '\''

def spanDigits : List Char → List Char × List Char
  | [] => ([], [])
  | c :: rest =>
    if c.isDigit then
      let (w, r) := spanDigits rest
      (c :: w, r)
    else ([], c :: rest)

/-- `key.strip('${}')`: remove every leading and trailing `$`, `{`, `}`. -/
def isDollarBrace (c : Char) : Bool := c == '$' || c == '\x7b' || c == '\x7d'

def stripDollarBraces (cs : List Char) : List Char :=
  ((cs.dropWhile isDollarBrace).reverse.dropWhile isDollarBrace).reverse

/-- Python `int(k)` on a string: optional surrounding whitespace, optional
sign, then decimal digits; anything else raises `ValueError`. -/
def pyInt (s : String) : Except PyErr Int :=
  let cs := (s.toList.dropWhile (· == ' ')).reverse.dropWhile (· == ' ') |>.reverse
  let (neg, digits) :=
    match cs with
    | '-' :: rest => (true, rest)
    | '+' :: rest => (false, rest)
    | rest => (false, rest)
  if digits = [] || !digits.all Char.isDigit then
    .error .valueError
  else
    let n : Nat := digits.foldl (fun acc c => acc * 10 + (c.toNat - 48)) 0
    .ok (if neg then -(n : Int) else (n : Int))

/-- Python `str.split(sep)` for a single-character separator: split on
every occurrence, keeping empty segments. -/
def pySplitCharAux (sep : Char) : List Char → List (List Char)
  | [] => [[]]
  | c :: rest =>
    if c == sep then [] :: pySplitCharAux sep rest
    else
      match pySplitCharAux sep rest with
      | t :: ts => (c :: t) :: ts
      | [] => [[c]]

def pySplitChar (sep : Char) (s : String) : List String :=
  (pySplitCharAux sep s.toList).map String.mk

/-- Python `s[:-1]`: drop the final character (whatever it is). -/
def pyDropLast (s : String) : String := String.mk s.toList.dropLast

/-- Escaping used by `json.dumps` for the characters our values contain. -/
def jsonEscapeChar (c : Char) : List Char :=
  if c == '"' then ['\\', '"']
  else if c == '\\' then ['\\', '\\']
  else if c == '\n' then ['\\', 'n']
  else if c == '\t' then ['\\', 't']
  else if c == '\r' then ['\\', 'r']
  else [c]

def jsonEscape (s : String) : String :=
  String.mk (s.toList.foldr (fun c acc => jsonEscapeChar c ++ acc) [])

mutual
/-- `json.dumps` with its default separators `', '` and `': '`. -/
def jsonDumps : Value → String
  | .str s => "\"" ++ jsonEscape s ++ "\""
  | .int n => toString n
  | .bool b => cond b "true" "false"
  | .none => "null"
  | .list xs => "[" ++ jsonDumpsItems xs ++ "]"
  | .dict xs => "\x7b" ++ jsonDumpsMembers xs ++ "\x7d"

def jsonDumpsItems : List Value → String
  | [] => ""
  | [v] => jsonDumps v
  | v :: vs => jsonDumps v ++ ", " ++ jsonDumpsItems vs

def jsonDumpsMembers : List (String × Value) → String
  | [] => ""
  | [(k, v)] => "\"" ++ jsonEscape k ++ "\": " ++ jsonDumps v
  | (k, v) :: ps => "\"" ++ jsonEscape k ++ "\": " ++ jsonDumps v ++ ", " ++ jsonDumpsMembers ps
end

/-- Whitespace skipped by the JSON decoders. -/
def jpSkipWs (cs : List Char) : List Char :=
  cs.dropWhile (fun c => c == ' ' || c == '\t' || c == '\n' || c == '\r')

/-- String-literal body scanner shared by the JSON decoders: consume up to
the closing quote `q`, handling the escape sequences these inputs can
contain; `none` on an unterminated literal or unknown escape. -/
def jpStringBody (q : Char) : Nat → List Char → Option (List Char × List Char)
  | 0, _ => Option.none
  | _, [] => Option.none
  | fuel + 1, c :: rest =>
    if c == q then some ([], rest)
    else if c == '\\' then
      match rest with
      | [] => Option.none
      | e :: rest2 =>
        let dec : Option Char :=
          if e == 'n' then some '\n'
          else if e == 't' then some '\t'
          else if e == 'r' then some '\r'
          else if e == '\\' then some '\\'
          else if e == '/' then some '/'
          else if e == '"' then some '"'
          else if e == '\'' then some '\''
          else Option.none
        match dec with
        | some d =>
          match jpStringBody q fuel rest2 with
          | some (body, rem) => some (d :: body, rem)
          | Option.none => Option.none
        | Option.none => Option.none
    else
      match jpStringBody q fuel rest with
      | some (body, rem) => some (c :: body, rem)
      | Option.none => Option.none

mutual
/-- Recursive-descent value decoder modelling `json.loads` (strict mode,
`lenient = false`) and `demjson.decode` (`lenient = true`, which also
accepts single-quoted strings).  Floats and `\uXXXX` escapes are not
modelled (no claim exercises them): such inputs simply fail to decode. -/
def jpValue (lenient : Bool) : Nat → List Char → Option (Value × List Char)
  | 0, _ => Option.none
  | fuel + 1, cs0 =>
    let cs := jpSkipWs cs0
    if "null".toList.isPrefixOf cs then some (Value.none, cs.drop 4)
    else if "true".toList.isPrefixOf cs then some (Value.bool true, cs.drop 4)
    else if "false".toList.isPrefixOf cs then some (Value.bool false, cs.drop 5)
    else
      match cs with
      | [] => Option.none
      | c :: rest =>
        if c == '"' || (lenient && c == '\'') then
          match jpStringBody c (rest.length + 1) rest with
          | some (body, rem) => some (Value.str (String.mk body), rem)
          | Option.none => Option.none
        else if c == '[' then
          match jpSkipWs rest with
          | ']' :: rem => some (Value.list [], rem)
          | _ =>
            match jpItems lenient fuel rest with
            | some (vs, rem) => some (Value.list vs, rem)
            | Option.none => Option.none
        else if c == '\x7b' then
          match jpSkipWs rest with
          | '\x7d' :: rem => some (Value.dict [], rem)
          | _ =>
            match jpMembers lenient fuel rest with
            | some (ps, rem) => some (Value.dict ps, rem)
            | Option.none => Option.none
        else if c == '-' || c.isDigit then
          let (neg, ds) := if c == '-' then (true, rest) else (false, c :: rest)
          let (digits, rem) := spanDigits ds
          if digits = [] then Option.none
          else
            match rem with
            | '.' :: _ => Option.none
            | 'e' :: _ => Option.none
            | 'E' :: _ => Option.none
            | _ =>
              let n : Nat := digits.foldl (fun acc d => acc * 10 + (d.toNat - 48)) 0
              some (Value.int (if neg then -(n : Int) else (n : Int)), rem)
        else Option.none

/-- Comma-separated list items up to the closing `]`. -/
def jpItems (lenient : Bool) : Nat → List Char → Option (List Value × List Char)
  | 0, _ => Option.none
  | fuel + 1, cs =>
    match jpValue lenient fuel cs with
    | some (v, rem) =>
      match jpSkipWs rem with
      | ',' :: rem2 =>
        match jpItems lenient fuel rem2 with
        | some (vs, rem3) => some (v :: vs, rem3)
        | Option.none => Option.none
      | ']' :: rem2 => some ([v], rem2)
      | _ => Option.none
    | Option.none => Option.none

/-- Comma-separated `"key": value` members up to the closing brace. -/
def jpMembers (lenient : Bool) : Nat → List Char → Option (List (String × Value) × List Char)
  | 0, _ => Option.none
  | fuel + 1, cs =>
    match jpSkipWs cs with
    | q :: rest =>
      if q == '"' || (lenient && q == '\'') then
        match jpStringBody q (rest.length + 1) rest with
        | some (key, rem) =>
          match jpSkipWs rem with
          | ':' :: rem2 =>
            match jpValue lenient fuel rem2 with
            | some (v, rem3) =>
              match jpSkipWs rem3 with
              | ',' :: rem4 =>
                match jpMembers lenient fuel rem4 with
                | some (ps, rem5) => some ((String.mk key, v) :: ps, rem5)
                | Option.none => Option.none
              | '\x7d' :: rem4 => some ([(String.mk key, v)], rem4)
              | _ => Option.none
            | Option.none => Option.none
          | _ => Option.none
        | Option.none => Option.none
      else Option.none
    | [] => Option.none
end

/-- Run a decoder over a whole string, requiring full consumption. -/
def jpRun (lenient : Bool) (s : String) : Option Value :=
  match jpValue lenient (s.length + 1) s.toList with
  | some (v, rest) => if jpSkipWs rest = [] then some v else Option.none
  | Option.none => Option.none

/-- `json.loads` (strict decoder) as used by `Makefile._parse_kwargs`. -/
def jsonLoads (s : String) : Option Value := jpRun false s

/-- `demjson.decode` (lenient decoder) as used by `_to_string`. -/
def demjsonDecode (s : String) : Option Value := jpRun true s

/-- `helpers._to_string`: a string that looks undecorated (length > 2,
first char differs from last, first char not a quote) is speculatively
decoded with demjson; lists and dicts are then re-serialised as JSON and
everything else is rendered with Python `str()`. -/
def toStringPy (v : Value) : String :=
  let v1 : Value :=
    match v with
    | .str s =>
      let cs := s.toList
      match cs with
      | c0 :: _ =>
        if cs.length > 2 && !(c0 == cs.getLastD c0) && !(isQuoteChar c0) then
          match demjsonDecode s with
          | some d => d
          | Option.none => .str s
        else .str s
      | [] => .str s
    | w => w
  match v1 with
  | .list xs => jsonDumps (.list xs)
  | .dict xs => jsonDumps (.dict xs)
  | .str s => s
  | .int n => toString n
  | .bool b => cond b "True" "False"
  | .none => "None"

/-- `_to_string` applied to a Python string (the common call shape). -/
def toStringPyStr (s : String) : String := toStringPy (.str s)

/-! ## The reference-token scanner of `Globals._replace_variables`

Model of `re.findall` with the pattern
`\$[\w_]+S* | \$\{[\w_]+S*\}` where `S` is one subscript
`\[("|')[\w_]+("|')\]` or `\[\$[\w_]+\]` or `\[\d+\]`, scanning left to
right and returning non-overlapping matches (duplicates kept, exactly as
`re.findall` does). -/

/-- One bracketed subscript, trying the three regex alternatives in their
written order: quoted word, nested `$name`, decimal digits. -/
def scanOneSub : List Char → Option (List Char × List Char)
  | '[' :: rest =>
    (match rest with
     | q :: rest2 =>
       if isQuoteChar q then
         match spanWord rest2 with
         | ([], _) => Option.none
         | (w, rest3) =>
           match rest3 with
           | q2 :: ']' :: rest4 =>
             if isQuoteChar q2 then some ('[' :: q :: (w ++ [q2, ']']), rest4)
             else Option.none
           | _ => Option.none
       else if q == '$' then
         match spanWord rest2 with
         | ([], _) => Option.none
         | (w, rest3) =>
           match rest3 with
           | ']' :: rest4 => some ('[' :: '$' :: (w ++ [']']), rest4)
           | _ => Option.none
       else
         match spanDigits rest with
         | ([], _) => Option.none
         | (d, rest3) =>
           match rest3 with
           | ']' :: rest4 => some ('[' :: (d ++ [']']), rest4)
           | _ => Option.none
     | [] => Option.none)
  | _ => Option.none

/-- Greedy `(subscript)*`. -/
def scanSubsStar : Nat → List Char → List Char × List Char
  | 0, cs => ([], cs)
  | fuel + 1, cs =>
    match scanOneSub cs with
    | some (m, rest) =>
      let (ms, rest2) := scanSubsStar fuel rest
      (m ++ ms, rest2)
    | Option.none => ([], cs)

/-- One whole reference token starting at a `$`; regex alternation order:
the bare form is tried before the braced form. -/
def scanTok (cs : List Char) : Option (List Char × List Char) :=
  match cs with
  | '$' :: rest =>
    match spanWord rest with
    | ([], _) =>
      match rest with
      | '\x7b' :: rest2 =>
        match spanWord rest2 with
        | ([], _) => Option.none
        | (w, rest3) =>
          let (subs, rest4) := scanSubsStar rest3.length rest3
          match rest4 with
          | '\x7d' :: rest5 => some ('$' :: '\x7b' :: (w ++ subs ++ ['\x7d']), rest5)
          | _ => Option.none
      | _ => Option.none
    | (w, rest2) =>
      let (subs, rest3) := scanSubsStar rest2.length rest2
      some ('$' :: (w ++ subs), rest3)
  | _ => Option.none

def findTokensAux : Nat → List Char → List String
  | 0, _ => []
  | _, [] => []
  | fuel + 1, c :: rest =>
    if c == '$' then
      match scanTok (c :: rest) with
      | some (m, rest2) => String.mk m :: findTokensAux fuel rest2
      | Option.none => findTokensAux fuel rest
    else findTokensAux fuel rest

/-- `re.findall(pattern, string)` for the token pattern above. -/
def findTokens (s : String) : List String :=
  findTokensAux s.toList.length s.toList

/-- `re.findall(r'^\$\{?[\w_]+\}?', var)[0]`: the base `$name` / `${name}`
of a matched token. -/
def extractBase (var : String) : String :=
  match var.toList with
  | '$' :: '\x7b' :: rest =>
    let (w, rest2) := spanWord rest
    String.mk ('$' :: '\x7b' :: (w ++ (match rest2 with | '\x7d' :: _ => ['\x7d'] | _ => [])))
  | '$' :: rest =>
    let (w, _) := spanWord rest
    String.mk ('$' :: w)
  | _ => ""

/-- Bracket interiors of a matched token with the optional surrounding
quotes removed, mirroring `re.findall(r'\[(?:\'|")?(.*?)(?:\'|")?\]', var)`
on the well-formed tokens the scanner produces (the lazy `.*?` stops at the
first `]`, and each optional quote is consumed when present). -/
def extractSubkeysAux : Nat → List Char → List String
  | 0, _ => []
  | _, [] => []
  | fuel + 1, c :: rest =>
    if c == '[' then
      let interior := rest.takeWhile (fun d => !(d == ']'))
      let rest2 := (rest.dropWhile (fun d => !(d == ']'))).drop 1
      if interior.length == rest.length then []
      else
        let i1 := match interior with
          | q :: tl => if isQuoteChar q then tl else interior
          | [] => interior
        let i2 := match i1.getLast? with
          | some q => if isQuoteChar q then i1.dropLast else i1
          | Option.none => i1
        String.mk i2 :: extractSubkeysAux fuel rest2
    else extractSubkeysAux fuel rest

def extractSubkeys (var : String) : List String :=
  extractSubkeysAux var.toList.length var.toList

/-- Python `str.replace(pat, repl)`: every non-overlapping occurrence, left
to right (the `pat` argument is never empty on the modelled paths). -/
def pyReplaceAux (pat repl : List Char) : Nat → List Char → List Char
  | 0, s => s
  | fuel + 1, s =>
    match s with
    | [] => []
    | c :: rest =>
      if pat.isPrefixOf s then
        repl ++ pyReplaceAux pat repl fuel (s.drop pat.length)
      else
        c :: pyReplaceAux pat repl fuel rest

def pyReplace (s pat repl : String) : String :=
  if pat == "" then s
  else String.mk (pyReplaceAux pat.toList repl.toList s.toList.length s.toList)

/-! ## The subscript-indexing loop and the interpolation engine -/

/-- Python list indexing `xs[i]` with negative-index semantics. -/
def pyListIndex (xs : List Value) (i : Int) : Except PyErr Value :=
  if 0 ≤ i ∧ i < (xs.length : Int) then
    .ok (xs.getD i.toNat Value.none)
  else if -(xs.length : Int) ≤ i ∧ i < 0 then
    .ok (xs.getD (i + xs.length).toNat Value.none)
  else .error .indexError

/-- One iteration of the indexing loop `for k in subkeys[1:]`: a list is
indexed by `int(k)`; anything else is indexed by the raw string `k`, which
succeeds only on a dict (on a string or scalar Python raises `TypeError`). -/
def indexStep (v : Value) (k : String) : Except PyErr Value :=
  match v with
  | .list xs =>
    match pyInt k with
    | .ok i => pyListIndex xs i
    | .error e => .error e
  | .dict xs =>
    match storeLookup xs k with
    | some w => .ok w
    | Option.none => .error .keyError
  | _ => .error .typeError

def indexFold (v : Value) : List String → Except PyErr Value
  | [] => .ok v
  | k :: ks =>
    match indexStep v k with
    | .ok v2 => indexFold v2 ks
    | .error e => .error e

/-- The `except (IndexError, KeyError): pass` clause around the indexing
loop: those two exception classes are swallowed (leaving the token mapped to
itself), every other exception propagates. -/
def catchIndexKey (r : Except PyErr Value) : Except PyErr (Option Value) :=
  match r with
  | .ok v => .ok (some v)
  | .error .indexError => .ok Option.none
  | .error .keyError => .ok Option.none
  | .error e => .error e

/-- The diagnostic message of `Globals._replace_variables`. -/
def warnMsg (key : String) : String :=
  "$" ++ key ++ " not found in Globals or OS environment variables"

/-- The type of the recursive `_replace_variables` call threaded through
the helpers below (instantiated with one unit of fuel consumed). -/
abbrev RV := St → Value → St × Except PyErr String

/-- `Globals.get(key, default)`: raw `dict.get`, then interpolation if the
retrieved value is a string. -/
def globalsGetWith (rv : RV) (st : St) (key : String) (defv : Value) :
    St × Except PyErr Value :=
  match (storeLookup st.store key).getD defv with
  | .str s =>
    match rv st (.str s) with
    | (st1, .ok r) => (st1, .ok (.str r))
    | (st1, .error e) => (st1, .error e)
  | v => (st, .ok v)

/-- `key.strip('${}')` as applied to a `$`-prefixed subkey. -/
def subkeyName (key : String) : String :=
  String.mk (stripDollarBraces key.toList)

/-- `os.environ.get(key)` coerced to the `Value` the `get` default sees. -/
def envDefault (envv : EnvVars) (k : String) : Value :=
  match envvGet envv k with
  | some s => .str s
  | Option.none => .none

/-- One iteration of the resolution loop over `subkeys`: a `$`-prefixed
entry is looked up via `self.get(key, os.environ.get(key))`; a hit is
re-interpolated through `_replace_variables` (which stringifies non-string
values), a miss emits the diagnostic and leaves the raw entry in place;
entries without a leading `$` are untouched. -/
def resolveOneKey (rv : RV) (envv : EnvVars) (st : St) (key : String) :
    St × Except PyErr String :=
  match key.toList with
  | '$' :: _ =>
    (match globalsGetWith rv st (subkeyName key) (envDefault envv (subkeyName key)) with
     | (st1, .error e) => (st1, .error e)
     | (st1, .ok Value.none) =>
       (⟨st1.store, st1.warns ++ [warnMsg (subkeyName key)]⟩, .ok key)
     | (st1, .ok v) => rv st1 v)
  | _ => (st, .ok key)

/-- The resolution loop `for i, key in enumerate(subkeys)`. -/
def resolveSubkeysWith (rv : RV) (envv : EnvVars) (st : St) :
    List String → St × Except PyErr (List String)
  | [] => (st, .ok [])
  | key :: rest =>
    match resolveOneKey rv envv st key with
    | (st1, .error e) => (st1, .error e)
    | (st1, .ok s) =>
      match resolveSubkeysWith rv envv st1 rest with
      | (st2, .ok tail) => (st2, .ok (s :: tail))
      | (st2, .error e) => (st2, .error e)

/-- Processing of one parsed token: split into base and subkeys, resolve the
`$`-entries, then run the guarded indexing loop.  Returns `some v` when
`var_replacements[var]` is updated, `none` when the `except` clause fired. -/
def processVarWith (rv : RV) (envv : EnvVars) (st : St) (var : String) :
    St × Except PyErr (Option Value) :=
  match resolveSubkeysWith rv envv st (extractBase var :: extractSubkeys var) with
  | (st1, .error e) => (st1, .error e)
  | (st1, .ok resolved) =>
    (st1, catchIndexKey
      (match resolved with
       | [] => Except.error PyErr.indexError
       | s0 :: ks => indexFold (Value.str s0) ks))

/-- The loop `for var in parsed_variables` (duplicates included, exactly as
`re.findall` returned them), updating the replacement dict. -/
def processVarsWith (rv : RV) (envv : EnvVars) (st : St)
    (repl : List (String × Value)) :
    List String → St × Except PyErr (List (String × Value))
  | [] => (st, .ok repl)
  | var :: rest =>
    match processVarWith rv envv st var with
    | (st1, .error e) => (st1, .error e)
    | (st1, .ok Option.none) => processVarsWith rv envv st1 repl rest
    | (st1, .ok (some v)) =>
      processVarsWith rv envv st1 (dictInsert repl var v) rest

/-- `var_replacements = {k: k for k in parsed_variables}`. -/
def initRepl (parsed : List String) : List (String × Value) :=
  parsed.foldl (fun acc t => dictInsert acc t (.str t)) []

/-- `Globals._replace_variables`, fuel-indexed: non-string input is first
rendered through `_to_string`; tokens are scanned, each one processed, and
finally every token occurrence in the original string is replaced by the
`_to_string` rendering of its replacement, sequentially in first-occurrence
order.  Fuel exhaustion models Python's `RecursionError`. -/
def replaceVariablesBody (rv : RV) (envv : EnvVars) (st : St) (string : String) :
    St × Except PyErr String :=
  match processVarsWith rv envv st (initRepl (findTokens string)) (findTokens string) with
  | (st1, .error e) => (st1, .error e)
  | (st1, .ok repl) =>
    (st1, .ok (repl.foldl (fun s p => pyReplace s p.1 (toStringPy p.2)) string))

def replaceVariablesF (envv : EnvVars) : Nat → St → Value → St × Except PyErr String
  | 0, st, _ => (st, .error .recursionError)
  | fuel + 1, st, value =>
    replaceVariablesBody (replaceVariablesF envv fuel) envv st
      (match value with
       | .str s => s
       | v => toStringPy v)

def replaceVariables (envv : EnvVars) (fuel : Nat) (st : St) (v : Value) :
    St × Except PyErr String :=
  replaceVariablesF envv fuel st v

namespace Globals

/-- `Globals.__getitem__`: raw dict access (raising `KeyError` on a missing
key), then interpolation when the stored value is a string. -/
def getItem (envv : EnvVars) (fuel : Nat) (st : St) (key : String) :
    St × Except PyErr Value :=
  match storeLookup st.store key with
  | Option.none => (st, .error .keyError)
  | some (.str s) =>
    match replaceVariablesF envv fuel st (.str s) with
    | (st1, .ok r) => (st1, .ok (.str r))
    | (st1, .error e) => (st1, .error e)
  | some v => (st, .ok v)

/-- `Globals.__getattr__` simply delegates to `__getitem__`. -/
def getAttr (envv : EnvVars) (fuel : Nat) (st : St) (key : String) :
    St × Except PyErr Value :=
  getItem envv fuel st key

/-- `Globals.get(key, default=None)`. -/
def get (envv : EnvVars) (fuel : Nat) (st : St) (key : String)
    (defv : Value := .none) : St × Except PyErr Value :=
  globalsGetWith (replaceVariablesF envv fuel) st key defv

end Globals

/-! ## `Shell._execute`: the sequential command executor

The operating system is abstracted as a pure map from (command list,
working directory) to the child's exit code and the text it writes to its
two streams; the executor's own logic — splitting on `;`, `shlex`
tokenisation, interpolation, `_to_string` normalisation, the capture /
stream distinction, output accumulation and the fail-fast `quit()` — is
translated from the source. -/

/-- Result of one `subprocess.run` invocation: the child's exit code and
what it wrote to stdout and stderr. -/
structure CmdOut where
  rc : Int
  out : String
  err : String

/-- The abstract operating system: every command list, run in a working
directory, deterministically produces a `CmdOut`. -/
abbrev ExecEnv := List String → String → CmdOut

mutual
/-- `shlex.split` (POSIX mode): whitespace-separated tokens; `'...'` is
literal, inside `"..."` a backslash escapes only `"` and `\` (and is kept
otherwise), outside quotes a backslash makes the next character literal.
An unterminated quote or trailing escape raises `ValueError`. -/
def shlexAux : Nat → List Char → Option (List Char) → List String →
    Except PyErr (List String)
  | 0, _, _, _ => .error .valueError
  | _, [], cur, acc =>
    match cur with
    | some t => .ok (acc ++ [String.mk t])
    | Option.none => .ok acc
  | fuel + 1, c :: rest, cur, acc =>
    if c == ' ' || c == '\t' || c == '\r' || c == '\n' then
      match cur with
      | some t => shlexAux fuel rest Option.none (acc ++ [String.mk t])
      | Option.none => shlexAux fuel rest Option.none acc
    else if c == '\'' then
      let body := rest.takeWhile (fun d => !(d == '\''))
      if body.length == rest.length then .error .valueError
      else
        let rest2 := (rest.dropWhile (fun d => !(d == '\''))).drop 1
        shlexAux fuel rest2 (some ((cur.getD []) ++ body)) acc
    else if c == '"' then
      shlexDq fuel rest (cur.getD []) acc
    else if c == '\\' then
      match rest with
      | [] => .error .valueError
      | d :: rest2 => shlexAux fuel rest2 (some ((cur.getD []) ++ [d])) acc
    else
      shlexAux fuel rest (some ((cur.getD []) ++ [c])) acc

/-- Inside a double-quoted section of `shlex.split`. -/
def shlexDq : Nat → List Char → List Char → List String →
    Except PyErr (List String)
  | 0, _, _, _ => .error .valueError
  | _, [], _, _ => .error .valueError
  | fuel + 1, c :: rest, cur, acc =>
    if c == '"' then shlexAux fuel rest (some cur) acc
    else if c == '\\' then
      match rest with
      | [] => .error .valueError
      | d :: rest2 =>
        if d == '"' || d == '\\' then shlexDq fuel rest2 (cur ++ [d]) acc
        else shlexDq fuel rest2 (cur ++ ['\\', d]) acc
    else shlexDq fuel rest (cur ++ [c]) acc
end

def shlexSplit (s : String) : Except PyErr (List String) :=
  shlexAux (s.toList.length + 1) s.toList Option.none []

/-- Python `repr` of a list of (quote-free) strings, as produced by the
`'%s' % command_list` interpolation in the failure message. -/
def pyReprStrList (l : List String) : String :=
  "[" ++ String.intercalate ", " (l.map (fun s => "'" ++ s ++ "'")) ++ "]"

/-- How the executor terminates: normal return of the accumulated output;
process termination via `quit()` — which raises `SystemExit(None)` and
therefore exits the interpreter with status 0; or an uncaught Python
exception (shlex/interpolation errors). -/
inductive ExecOutcome where
  | ok (output : String)
  | exit (code : Nat)
  | err (e : PyErr)

/-- Observable result of `Shell._execute`: the command lists actually
handed to `subprocess.run`, the `print` calls made, the final interpolation
state, and the outcome. -/
structure ShellRes where
  ran : List (List String)
  printed : List String
  st : St
  outcome : ExecOutcome

/-- `if not cwd: cwd = self.cwd if self.cwd else os.getcwd()` (Python
truthiness: both `None` and `""` are falsy; `""` encodes `None`). -/
def resolveCwd (selfCwd : Option String) (osCwd : String) (cwd : String) : String :=
  if cwd == "" then
    match selfCwd with
    | some s => if s == "" then osCwd else s
    | Option.none => osCwd
  else cwd

/-- Interpolate every token of the command list through
`self.globals._replace_variables`. -/
def interpTokens (rv : RV) (st : St) : List String → St × Except PyErr (List String)
  | [] => (st, .ok [])
  | t :: rest =>
    match rv st (.str t) with
    | (st1, .error e) => (st1, .error e)
    | (st1, .ok t1) =>
      match interpTokens rv st1 rest with
      | (st2, .ok tail) => (st2, .ok (t1 :: tail))
      | (st2, .error e) => (st2, .error e)

/-- The failure branch of `_execute`: message built with `%`-formatting and
printed as `print(msg, stderr_msg)` (two arguments joined by a space). -/
def failMsg (cl : List String) (rc : Int) (pstderr : Option String) : String :=
  let msg := "\nCommand `" ++ pyReprStrList cl ++ "` failed with exit code " ++ toString rc
  let smsg := match pstderr with
    | some s => if s == "" then "" else ":\n\n" ++ s
    | Option.none => ""
  msg ++ " " ++ smsg

/-- The `for cmd in commands` loop of `Shell._execute`.  `useGlobals` is
`isinstance(self.globals, Globals)`; `stdoutPipe` / `stderrPipe` tell
whether the respective stream was requested as `subprocess.PIPE` (capture)
or passed through to the console.  An empty token list models the exception
`subprocess.run([])` raises. -/
def execLoop (rv : RV) (useGlobals : Bool) (selfCwd : Option String)
    (osCwd : String) (env : ExecEnv) (stdoutPipe stderrPipe : Bool) :
    List String → String → St → String → List (List String) → List String → ShellRes
  | [], _, st, output, ran, printed => ⟨ran, printed, st, .ok output⟩
  | c :: rest, cwd0, st, output, ran, printed =>
    match shlexSplit c with
    | .error e => ⟨ran, printed, st, .err e⟩
    | .ok toks =>
      let cwd1 := resolveCwd selfCwd osCwd cwd0
      let interpolated : St × Except PyErr (List String × String) :=
        if useGlobals then
          match interpTokens rv st toks with
          | (st1, .error e) => (st1, .error e)
          | (st1, .ok toks1) =>
            match rv st1 (.str cwd1) with
            | (st2, .error e) => (st2, .error e)
            | (st2, .ok cwd2) => (st2, .ok (toks1, cwd2))
        else (st, .ok (toks, cwd1))
      match interpolated with
      | (st2, .error e) => ⟨ran, printed, st2, .err e⟩
      | (st2, .ok (toks1, cwd2)) =>
        let toks2 := toks1.map toStringPyStr
        match toks2 with
        | [] => ⟨ran, printed, st2, .err .indexError⟩
        | _ :: _ =>
          let p := env toks2 cwd2
          let ran1 := ran ++ [toks2]
          if p.rc == 0 then
            let output1 :=
              if stdoutPipe && !(p.out == "") then output ++ pyDropLast p.out
              else output
            execLoop rv useGlobals selfCwd osCwd env stdoutPipe stderrPipe
              rest cwd2 st2 output1 ran1 printed
          else
            let pstderr := if stderrPipe then some p.err else Option.none
            ⟨ran1, printed ++ [failMsg toks2 p.rc pstderr], st2, .exit 0⟩

/-- `Shell._execute(command, cwd, stdout, stderr)`. -/
def shellExecute (envv : EnvVars) (fuel : Nat) (globals : Option Store)
    (selfCwd : Option String) (osCwd : String) (env : ExecEnv)
    (stdoutPipe stderrPipe : Bool) (command : String) (cwdArg : Option String) :
    ShellRes :=
  let useGlobals := globals.isSome
  let st0 : St := ⟨globals.getD [], []⟩
  let cwd0 := cwdArg.getD ""
  execLoop (replaceVariablesF envv fuel) useGlobals selfCwd osCwd env
    stdoutPipe stderrPipe (pySplitChar ';' command) cwd0 st0 "" [] []

/-- `Shell.run`: stream mode (`stdout=sys.stdout, stderr=subprocess.STDOUT`). -/
def shellRun (envv : EnvVars) (fuel : Nat) (globals : Option Store)
    (selfCwd : Option String) (osCwd : String) (env : ExecEnv)
    (command : String) (cwdArg : Option String) : ShellRes :=
  shellExecute envv fuel globals selfCwd osCwd env false false command cwdArg

/-- `Shell.capture`: capture mode (`stdout=stderr=subprocess.PIPE`). -/
def shellCapture (envv : EnvVars) (fuel : Nat) (globals : Option Store)
    (selfCwd : Option String) (osCwd : String) (env : ExecEnv)
    (command : String) (cwdArg : Option String) : ShellRes :=
  shellExecute envv fuel globals selfCwd osCwd env true true command cwdArg

/-! ## `Makefile`: CLI parsing, target selection and argument binding -/

/-- The cached result of `inspect.getargspec(function)`: declared parameter
names in order, their trailing defaults, and whether the target accepts
`*args` / `**kwargs`. -/
structure ArgSpec where
  args : List String
  defaults : List Value
  varargs : Bool
  keywords : Bool

/-- Dropping of empty-string tokens, `[a for a in args if a != '']`. -/
def dropEmptyTokens (tokens : List String) : List String :=
  tokens.filter (fun a => !(a == ""))

/-- The kwarg-token regex `^[\w_][\w\d_]*=.+$`. -/
def kwargMatch (a : String) : Bool :=
  match a.toList with
  | [] => false
  | c0 :: rest =>
    isWordChar c0 &&
      (match spanWord rest with
       | (_, '=' :: tail) => !tail.isEmpty && tail.all (fun c => !(c == '\n'))
       | _ => false)

/-- `json.loads(s)` with the raw string kept on decode failure. -/
def loadJson (s : String) : Value :=
  match jsonLoads s with
  | some v => v
  | Option.none => .str s

/-- The dict comprehension `{k: load_json(v) for k, v in kwargs}` over the
`a.split('=')` results; a matching token containing more than one `=`
makes the 2-tuple unpacking raise `ValueError`. -/
def buildKwargs : List String → List (String × Value) →
    Except PyErr (List (String × Value))
  | [], acc => .ok acc
  | a :: rest, acc =>
    match pySplitChar '=' a with
    | [k, v] => buildKwargs rest (dictInsert acc k (loadJson v))
    | _ => .error .valueError

/-- `Makefile._parse_kwargs`: returns the kwargs dict and the remaining
positional tokens. -/
def parseKwargsRun (args : List String) :
    Except PyErr (List (String × Value) × List String) :=
  match buildKwargs (args.filter kwargMatch) [] with
  | .error e => .error e
  | .ok kw => .ok (kw, args.filter (fun a => !(kwargMatch a)))

/-- The flag-token regex `^-\w+$`. -/
def flagMatch (a : String) : Bool :=
  match a.toList with
  | '-' :: rest => !rest.isEmpty && rest.all isWordChar
  | _ => false

/-- `Makefile._parse_flags`: every character after the dash of a matching
token becomes an independent single-letter flag (dict keys, so first
occurrence order, deduplicated); afterwards a token `a` is removed from the
positional list only when `flags.get(a[1:])` is truthy — which for a
multi-letter token like `-verbose` it is not. -/
def parseFlags (args : List String) : List String × List String :=
  let flags := (args.filter flagMatch).foldl
    (fun acc a => (a.drop 1).toList.foldl
      (fun acc2 c =>
        let f := String.mk [c]
        if acc2.contains f then acc2 else acc2 ++ [f]) acc) []
  (flags, args.filter (fun a => !(flags.contains (a.drop 1))))

/-- The per-parameter matching loop of `Makefile.run`: supplied keyword
(`is not None`), else truthy flag, else declared default, else the
parameter is unsatisfied and `arg_error` is set. -/
def bindLoop (kwargs : List (String × Value)) (flags : List String)
    (defaults : List Value) (nd : Nat) :
    Nat → List String → List (String × Value) × Bool
  | _, [] => ([], false)
  | i, arg :: rest =>
    let (tailArgs, tailErr) := bindLoop kwargs flags defaults nd (i + 1) rest
    match pyDictGet kwargs arg with
    | .none =>
      if flags.contains arg then ((arg, .bool true) :: tailArgs, tailErr)
      else if nd ≤ i then ((arg, defaults.getD (i - nd) .none) :: tailArgs, tailErr)
      else (tailArgs, true)
    | v => ((arg, v) :: tailArgs, tailErr)

/-- The bound call computed by `Makefile.run` for one target. -/
structure BoundCall where
  args : List (String × Value)
  argError : Bool
  extraArgs : List String
  extraKwargs : List (String × Value)

/-- Argument binding for one selected target: named parameters through
`bindLoop`, then the `*args` passthrough (unconsumed positionals plus each
flag re-rendered as `-f`) and the `**kwargs` passthrough. -/
def bindCall (spec : ArgSpec) (posArgs : List String)
    (kwargs : List (String × Value)) (flags : List String) : BoundCall :=
  let nd := spec.args.length - spec.defaults.length
  let (bargs, err) := bindLoop kwargs flags spec.defaults nd 0 spec.args
  let extraA :=
    if spec.varargs then
      posArgs.filter (fun a => !(spec.args.contains a)) ++ flags.map (fun f => "-" ++ f)
    else []
  let extraK :=
    if spec.keywords then kwargs.filter (fun p => !(spec.args.contains p.1))
    else []
  ⟨bargs, err, extraA, extraK⟩

/-- The binding pipeline a selected target's leftover tokens go through in
`Makefile.make`: the empty-string filtering of `_parse_args` (tokens that
reach binding already survived argparse — a help token would have exited
the process there), then `_parse_kwargs`, `_parse_flags` and the `run`
binder. -/
def makefileBind (spec : ArgSpec) (tokens : List String) :
    Except PyErr BoundCall :=
  match parseKwargsRun (dropEmptyTokens tokens) with
  | .error e => .error e
  | .ok (kwargs, args1) =>
    let (flags, args2) := parseFlags args1
    .ok (bindCall spec args2 kwargs flags)


/-! ## Invariants of the interpolation engine -/

/-- Errors that escape the `except (IndexError, KeyError)` clause are never
of the two caught classes. -/
lemma catchIndexKey_err (r : Except PyErr Value) (e : PyErr)
    (h : catchIndexKey r = .error e) : e ≠ .indexError ∧ e ≠ .keyError := by
  cases r with
  | ok v => simp [catchIndexKey] at h
  | error e2 => cases e2 <;> simp [catchIndexKey] at h <;> simp [← h]

lemma globalsGetWith_store (rv : RV)
    (hrv : ∀ st v, ((rv st v).1).store = st.store)
    (st : St) (key : String) (defv : Value) :
    ((globalsGetWith rv st key defv).1).store = st.store := by
  unfold globalsGetWith
  split
  next s hs =>
    split
    next st1 r heq =>
      have h := hrv st (.str s)
      rw [heq] at h
      exact h
    next st1 e heq =>
      have h := hrv st (.str s)
      rw [heq] at h
      exact h
  next => rfl

lemma globalsGetWith_err (rv : RV)
    (hrv : ∀ st v e, (rv st v).2 = .error e → e ≠ .indexError ∧ e ≠ .keyError)
    (st : St) (key : String) (defv : Value) (e : PyErr)
    (h : (globalsGetWith rv st key defv).2 = .error e) :
    e ≠ .indexError ∧ e ≠ .keyError := by
  unfold globalsGetWith at h
  revert h
  split
  next s hs =>
    split
    next st1 r heq => intro h; simp at h
    next st1 e2 heq =>
      intro h
      simp at h
      subst h
      have h2 := hrv st (.str s) e2
      rw [heq] at h2
      exact h2 rfl
  next => intro h; simp at h

lemma resolveOneKey_store (rv : RV)
    (hrv : ∀ st v, ((rv st v).1).store = st.store)
    (envv : EnvVars) (st : St) (key : String) :
    ((resolveOneKey rv envv st key).1).store = st.store := by
  unfold resolveOneKey
  split
  · split
    next st1 e heq =>
      have h := globalsGetWith_store rv hrv st (subkeyName key) (envDefault envv (subkeyName key))
      rw [heq] at h
      exact h
    next st1 heq =>
      have h := globalsGetWith_store rv hrv st (subkeyName key) (envDefault envv (subkeyName key))
      rw [heq] at h
      exact h
    next st1 v hvn heq =>
      have h := globalsGetWith_store rv hrv st (subkeyName key) (envDefault envv (subkeyName key))
      rw [heq] at h
      exact (hrv st1 v).trans h
  · rfl

lemma resolveOneKey_err (rv : RV)
    (hrv : ∀ st v e, (rv st v).2 = .error e → e ≠ .indexError ∧ e ≠ .keyError)
    (envv : EnvVars) (st : St) (key : String) (e : PyErr)
    (h : (resolveOneKey rv envv st key).2 = .error e) :
    e ≠ .indexError ∧ e ≠ .keyError := by
  unfold resolveOneKey at h
  revert h
  split
  · split
    next st1 e2 heq =>
      intro h
      simp at h
      subst h
      have h2 := globalsGetWith_err rv hrv st (subkeyName key) (envDefault envv (subkeyName key)) e2
      rw [heq] at h2
      exact h2 rfl
    next st1 heq => intro h; simp at h
    next st1 v hvn heq => exact hrv st1 v e
  · intro h; simp at h

lemma resolveSubkeysWith_store (rv : RV)
    (hrv : ∀ st v, ((rv st v).1).store = st.store)
    (envv : EnvVars) (keys : List String) :
    ∀ st : St, ((resolveSubkeysWith rv envv st keys).1).store = st.store := by
  induction keys with
  | nil => intro st; rfl
  | cons key rest ih =>
    intro st
    unfold resolveSubkeysWith
    split
    next st1 e heq =>
      have h := resolveOneKey_store rv hrv envv st key
      rw [heq] at h
      exact h
    next st1 s heq =>
      have h := resolveOneKey_store rv hrv envv st key
      rw [heq] at h
      split
      next st2 tail heq2 =>
        have h2 := ih st1
        rw [heq2] at h2
        exact h2.trans h
      next st2 e heq2 =>
        have h2 := ih st1
        rw [heq2] at h2
        exact h2.trans h

lemma resolveSubkeysWith_err (rv : RV)
    (hrv : ∀ st v e, (rv st v).2 = .error e → e ≠ .indexError ∧ e ≠ .keyError)
    (envv : EnvVars) (keys : List String) :
    ∀ (st : St) (e : PyErr), (resolveSubkeysWith rv envv st keys).2 = .error e →
      e ≠ .indexError ∧ e ≠ .keyError := by
  induction keys with
  | nil => intro st e h; simp [resolveSubkeysWith] at h
  | cons key rest ih =>
    intro st e h
    unfold resolveSubkeysWith at h
    revert h
    split
    next st1 e2 heq =>
      intro h
      simp at h
      subst h
      have h2 := resolveOneKey_err rv hrv envv st key e2
      rw [heq] at h2
      exact h2 rfl
    next st1 s heq =>
      split
      next st2 tail heq2 => intro h; simp at h
      next st2 e2 heq2 =>
        intro h
        simp at h
        subst h
        have h2 := ih st1 e2
        rw [heq2] at h2
        exact h2 rfl

lemma processVarWith_store (rv : RV)
    (hrv : ∀ st v, ((rv st v).1).store = st.store)
    (envv : EnvVars) (st : St) (var : String) :
    ((processVarWith rv envv st var).1).store = st.store := by
  unfold processVarWith
  split
  next st1 e heq =>
    have h := resolveSubkeysWith_store rv hrv envv (extractBase var :: extractSubkeys var) st
    rw [heq] at h
    exact h
  next st1 resolved heq =>
    have h := resolveSubkeysWith_store rv hrv envv (extractBase var :: extractSubkeys var) st
    rw [heq] at h
    exact h

lemma processVarWith_err (rv : RV)
    (hrv : ∀ st v e, (rv st v).2 = .error e → e ≠ .indexError ∧ e ≠ .keyError)
    (envv : EnvVars) (st : St) (var : String) (e : PyErr)
    (h : (processVarWith rv envv st var).2 = .error e) :
    e ≠ .indexError ∧ e ≠ .keyError := by
  unfold processVarWith at h
  revert h
  split
  next st1 e2 heq =>
    intro h
    simp at h
    subst h
    exact resolveSubkeysWith_err rv hrv envv _ st e2 (by rw [heq])
  next st1 resolved heq =>
    intro h
    simp at h
    exact catchIndexKey_err _ e h


lemma processVarsWith_store (rv : RV)
    (hrv : ∀ st v, ((rv st v).1).store = st.store)
    (envv : EnvVars) (vars : List String) :
    ∀ (st : St) (repl : List (String × Value)),
      ((processVarsWith rv envv st repl vars).1).store = st.store := by
  induction vars with
  | nil => intro st repl; rfl
  | cons var rest ih =>
    intro st repl
    unfold processVarsWith
    have h := processVarWith_store rv hrv envv st var
    rcases hpw : processVarWith rv envv st var with ⟨st1, r⟩
    rw [hpw] at h
    cases r with
    | error e => exact h
    | ok o =>
      cases o with
      | none => exact (ih st1 repl).trans h
      | some v => exact (ih st1 (dictInsert repl var v)).trans h

lemma processVarsWith_err (rv : RV)
    (hrv : ∀ st v e, (rv st v).2 = .error e → e ≠ .indexError ∧ e ≠ .keyError)
    (envv : EnvVars) (vars : List String) :
    ∀ (st : St) (repl : List (String × Value)) (e : PyErr),
      (processVarsWith rv envv st repl vars).2 = .error e →
        e ≠ .indexError ∧ e ≠ .keyError := by
  induction vars with
  | nil => intro st repl e h; simp [processVarsWith] at h
  | cons var rest ih =>
    intro st repl e h
    unfold processVarsWith at h
    rcases hpw : processVarWith rv envv st var with ⟨st1, r⟩
    rw [hpw] at h
    cases r with
    | error e2 =>
      simp at h
      subst h
      exact processVarWith_err rv hrv envv st var e2 (by rw [hpw])
    | ok o =>
      cases o with
      | none => exact ih st1 repl e h
      | some v => exact ih st1 (dictInsert repl var v) e h

lemma replaceVariablesBody_store (rv : RV)
    (hrv : ∀ st v, ((rv st v).1).store = st.store)
    (envv : EnvVars) (st : St) (string : String) :
    ((replaceVariablesBody rv envv st string).1).store = st.store := by
  unfold replaceVariablesBody
  have h := processVarsWith_store rv hrv envv (findTokens string) st (initRepl (findTokens string))
  rcases hpw : processVarsWith rv envv st (initRepl (findTokens string)) (findTokens string) with ⟨st1, r⟩
  rw [hpw] at h
  cases r with
  | error e => exact h
  | ok repl => exact h

lemma replaceVariablesBody_err (rv : RV)
    (hrv : ∀ st v e, (rv st v).2 = .error e → e ≠ .indexError ∧ e ≠ .keyError)
    (envv : EnvVars) (st : St) (string : String) (e : PyErr)
    (h : (replaceVariablesBody rv envv st string).2 = .error e) :
    e ≠ .indexError ∧ e ≠ .keyError := by
  unfold replaceVariablesBody at h
  rcases hpw : processVarsWith rv envv st (initRepl (findTokens string)) (findTokens string) with ⟨st1, r⟩
  rw [hpw] at h
  cases r with
  | error e2 =>
    simp at h
    subst h
    exact processVarsWith_err rv hrv envv (findTokens string) st (initRepl (findTokens string)) e2 (by rw [hpw])
  | ok repl => simp at h

/-- The store is never written by `_replace_variables`. -/
lemma replaceVariablesF_store (envv : EnvVars) :
    ∀ (fuel : Nat) (st : St) (v : Value),
      ((replaceVariablesF envv fuel st v).1).store = st.store := by
  intro fuel
  induction fuel with
  | zero => intro st v; rfl
  | succ fuel ih =>
    intro st v
    exact replaceVariablesBody_store (replaceVariablesF envv fuel) ih envv st _

/-- Errors escaping `_replace_variables` are never `IndexError` or
`KeyError`: those two classes are always swallowed by the indexing loop's
`except` clause. -/
lemma replaceVariablesF_err (envv : EnvVars) :
    ∀ (fuel : Nat) (st : St) (v : Value) (e : PyErr),
      (replaceVariablesF envv fuel st v).2 = .error e →
        e ≠ .indexError ∧ e ≠ .keyError := by
  intro fuel
  induction fuel with
  | zero =>
    intro st v e h
    simp [replaceVariablesF] at h
    simp [← h]
  | succ fuel ih =>
    intro st v e h
    exact replaceVariablesBody_err (replaceVariablesF envv fuel) ih envv st _ e h

/-! ## Claims about the Variable Store and the String Interpolator -/

/-- Claim C9: every read operation on the Variable Store — item access,
attribute access, get-with-default, and full string interpolation — leaves
the store's contents unchanged; the only side effect is the diagnostic list
growing (the `warns` component of the state). -/
theorem store_reads_leave_store_unchanged (envv : EnvVars) (fuel : Nat)
    (st : St) (key : String) (defv v : Value) :
    ((Globals.getItem envv fuel st key).1).store = st.store ∧
    ((Globals.getAttr envv fuel st key).1).store = st.store ∧
    ((Globals.get envv fuel st key defv).1).store = st.store ∧
    ((replaceVariables envv fuel st v).1).store = st.store := by
  have hitem : ((Globals.getItem envv fuel st key).1).store = st.store := by
    unfold Globals.getItem
    split
    · rfl
    next s hs =>
      have h := replaceVariablesF_store envv fuel st (.str s)
      split
      next st1 r heq => rw [heq] at h; exact h
      next st1 e heq => rw [heq] at h; exact h
    · rfl
  refine ⟨hitem, hitem, ?_, replaceVariablesF_store envv fuel st v⟩
  exact globalsGetWith_store _ (replaceVariablesF_store envv fuel) st key defv

/-- Claim C5: store reads of string values resolve `$`-references
transitively at read time.  With `a = "x"` and `b = "$a"`, reading `b`
yields `"x"`; adding `c = "$b"`, reading `c` also yields `"x"`, and no
diagnostics are emitted. -/
theorem store_read_transitive_resolution :
    Globals.getItem [] 20 ⟨[("a", .str "x"), ("b", .str "$a")], []⟩ "b" =
      (⟨[("a", .str "x"), ("b", .str "$a")], []⟩, .ok (.str "x")) ∧
    Globals.getItem [] 20
        ⟨[("a", .str "x"), ("b", .str "$a"), ("c", .str "$b")], []⟩ "c" =
      (⟨[("a", .str "x"), ("b", .str "$a"), ("c", .str "$b")], []⟩, .ok (.str "x")) := by
  exact ⟨rfl, rfl⟩

/-- Claim C3 (the code contradicts it): with store `{"P": {"k": [1,2,3]}}`,
interpolating `"$P['k'][1]"` does not yield `"2"` — the resolved base value
is passed back through `_replace_variables`, whose input handling converts
the dict to its JSON string, so the first subscript step indexes a *string*
with the key `'k'` and raises an uncaught `TypeError` (not caught by the
`except (IndexError, KeyError)` clause). -/
theorem subscript_interpolation_raises_typeerror :
    replaceVariables [] 20
        ⟨[("P", .dict [("k", .list [.int 1, .int 2, .int 3])])], []⟩
        (.str "$P['k'][1]") =
      (⟨[("P", .dict [("k", .list [.int 1, .int 2, .int 3])])], []⟩,
        .error .typeError) := by
  rfl

/-- Claim C4, counterexample: an interpolation input on which subscript
indexing fails with a wrong-type error does raise — with store
`{"L": [1,2,3]}` the token `"$L[0]"` produces `Except.error TypeError`
instead of being left verbatim with no error. -/
theorem subscript_failure_raises_counterexample :
    (replaceVariables [] 20 ⟨[("L", .list [.int 1, .int 2, .int 3])], []⟩
        (.str "$L[0]")).2 = .error .typeError := by
  rfl

/-- Claim C4 (amended): only the index-out-of-range and missing-mapping-key
failures are silently caught by the indexing loop — no `IndexError` or
`KeyError` ever escapes `_replace_variables` — while wrong-type subscript
failures propagate as uncaught errors. -/
theorem subscript_index_key_failures_never_escape (envv : EnvVars)
    (fuel : Nat) (st : St) (v : Value) :
    (replaceVariables envv fuel st v).2 ≠ .error .indexError ∧
    (replaceVariables envv fuel st v).2 ≠ .error .keyError := by
  constructor
  · intro h
    exact ((replaceVariablesF_err envv fuel st v .indexError h).1) rfl
  · intro h
    exact ((replaceVariablesF_err envv fuel st v .keyError h).2) rfl

lemma word_beq_false (c d : Char) (h : isWordChar c = true)
    (hd : isWordChar d = false) : (c == d) = false := by
  by_cases he : c = d
  · subst he; rw [h] at hd; exact absurd hd (by simp)
  · exact beq_eq_false_iff_ne.mpr he

lemma word_not_brace (c : Char) (h : isWordChar c = true) :
    isDollarBrace c = false := by
  unfold isDollarBrace
  rw [word_beq_false c '$' h (by decide), word_beq_false c '\x7b' h (by decide),
      word_beq_false c '\x7d' h (by decide)]
  rfl

lemma dropWhile_brace_word (l : List Char) (h : l.all isWordChar = true) :
    l.dropWhile isDollarBrace = l := by
  cases l with
  | nil => rfl
  | cons c t =>
    rw [List.all_cons, Bool.and_eq_true] at h
    rw [List.dropWhile_cons, word_not_brace c h.1]
    simp

lemma stripDollarBraces_token (name : List Char) (h : name.all isWordChar = true) :
    stripDollarBraces ('$' :: name) = name := by
  unfold stripDollarBraces
  rw [List.dropWhile_cons]
  norm_num [show isDollarBrace '$' = true from rfl]
  rw [dropWhile_brace_word name h,
      dropWhile_brace_word name.reverse (by rw [List.all_reverse]; exact h),
      List.reverse_reverse]

lemma spanWord_all (cs : List Char) (h : cs.all isWordChar = true) :
    spanWord cs = (cs, []) := by
  induction cs with
  | nil => rfl
  | cons c t ih =>
    rw [List.all_cons, Bool.and_eq_true] at h
    simp [spanWord, h.1, ih h.2]

lemma scanSubsStar_nil (fuel : Nat) : scanSubsStar fuel [] = ([], []) := by
  cases fuel <;> rfl

lemma findTokensAux_nil (fuel : Nat) : findTokensAux fuel [] = [] := by
  cases fuel <;> rfl

lemma scanTok_word (name : List Char) (hw : name.all isWordChar = true)
    (hne : name ≠ []) :
    scanTok ('$' :: name) = some ('$' :: name, []) := by
  obtain ⟨n0, tail, rfl⟩ : ∃ n0 tail, name = n0 :: tail := by
    cases name with
    | nil => exact absurd rfl hne
    | cons a b => exact ⟨a, b, rfl⟩
  unfold scanTok
  split
  next =>
    rename_i rest heq
    obtain rfl : rest = n0 :: tail := by
      injection heq with h1 h2
      exact h2.symm
    rw [spanWord_all (n0 :: tail) hw]
    simp [scanSubsStar_nil]
  next x h2 => exact absurd rfl (h2 (n0 :: tail))

lemma findTokens_single_token (name : List Char) (hw : name.all isWordChar = true)
    (hne : name ≠ []) :
    findTokens (String.mk ('$' :: name)) = [String.mk ('$' :: name)] := by
  show findTokensAux ('$' :: name).length ('$' :: name) = [String.mk ('$' :: name)]
  rw [List.length_cons]
  have h1 : findTokensAux (name.length + 1) ('$' :: name) =
      (match scanTok ('$' :: name) with
       | some (m, rest2) => String.mk m :: findTokensAux name.length rest2
       | Option.none => findTokensAux name.length name) := by
    simp [findTokensAux]
  rw [h1, scanTok_word name hw hne]
  dsimp only
  rw [findTokensAux_nil]

lemma demjsonDecode_dollar (name : List Char) :
    demjsonDecode (String.mk ('$' :: name)) = Option.none := by
  rfl

lemma toStringPyStr_dollar (name : List Char) :
    toStringPyStr (String.mk ('$' :: name)) = String.mk ('$' :: name) := by
  unfold toStringPyStr toStringPy
  split
  next =>
    rename_i s heq1
    obtain rfl : s = String.mk ('$' :: name) := by
      injection heq1 with h
      exact h.symm
    split
    next =>
      rename_i d heq2
      rw [demjsonDecode_dollar] at heq2
      exact absurd heq2 (by simp)
    next =>
      simp [ite_self]
  next h => exact (h _ rfl).elim

lemma extractBase_word_token (name : List Char) (hw : name.all isWordChar = true)
    (hne : name ≠ []) :
    extractBase (String.mk ('$' :: name)) = String.mk ('$' :: name) := by
  obtain ⟨n0, tail, rfl⟩ : ∃ n0 tail, name = n0 :: tail := by
    cases name with
    | nil => exact absurd rfl hne
    | cons a b => exact ⟨a, b, rfl⟩
  have hn0 : isWordChar n0 = true := by
    rw [List.all_cons, Bool.and_eq_true] at hw
    exact hw.1
  unfold extractBase
  split
  next =>
    rename_i rest heq
    exfalso
    have heq2 : '$' :: n0 :: tail = '$' :: '\x7b' :: rest := heq
    rw [List.cons.injEq, List.cons.injEq] at heq2
    obtain ⟨-, h3, -⟩ := heq2
    rw [h3] at hn0
    exact absurd hn0 (by decide)
  next =>
    rename_i rest hconf heq
    have heq2 : '$' :: n0 :: tail = '$' :: rest := heq
    obtain rfl : rest = n0 :: tail := by
      injection heq2 with h1 h2
      exact h2.symm
    rw [spanWord_all (n0 :: tail) hw]
  next =>
    rename_i h2
    exact (h2 (n0 :: tail) rfl).elim

lemma extractSubkeysAux_no_bracket :
    ∀ (fuel : Nat) (cs : List Char),
      (∀ c ∈ cs, (c == '[') = false) → extractSubkeysAux fuel cs = [] := by
  intro fuel
  induction fuel with
  | zero => intro cs h; cases cs <;> rfl
  | succ fuel ih =>
    intro cs h
    cases cs with
    | nil => rfl
    | cons c t =>
      have hc := h c (List.mem_cons_self c t)
      simp only [extractSubkeysAux, hc, Bool.false_eq_true, if_false]
      exact ih t (fun d hd => h d (List.mem_cons_of_mem c hd))

lemma extractSubkeys_word_token (name : List Char) (hw : name.all isWordChar = true) :
    extractSubkeys (String.mk ('$' :: name)) = [] := by
  unfold extractSubkeys
  show extractSubkeysAux ('$' :: name).length ('$' :: name) = []
  apply extractSubkeysAux_no_bracket
  intro c hc
  rcases List.mem_cons.mp hc with rfl | hmem
  · decide
  · exact word_beq_false c '[' (List.all_eq_true.mp hw c hmem) (by decide)

lemma pyReplaceAux_self (pat : List Char) :
    ∀ (fuel : Nat) (s : List Char), pyReplaceAux pat pat fuel s = s := by
  intro fuel
  induction fuel with
  | zero => intro s; rfl
  | succ fuel ih =>
    intro s
    cases s with
    | nil => rfl
    | cons c rest =>
      rw [show pyReplaceAux pat pat (fuel + 1) (c :: rest) =
            (if pat.isPrefixOf (c :: rest) then
              pat ++ pyReplaceAux pat pat fuel ((c :: rest).drop pat.length)
             else c :: pyReplaceAux pat pat fuel rest) from rfl]
      by_cases hp : pat.isPrefixOf (c :: rest) = true
      · rw [if_pos hp, ih]
        obtain ⟨t, ht⟩ := List.isPrefixOf_iff_prefix.mp hp
        rw [← ht, List.drop_left]
      · rw [if_neg (by simpa using hp), ih]

lemma pyReplace_self (s pat : String) : pyReplace s pat pat = s := by
  unfold pyReplace
  split
  · rfl
  · rw [pyReplaceAux_self]
    cases s
    rfl

lemma dictInsert_self (tok : String) (v : Value) :
    dictInsert [(tok, v)] tok v = [(tok, v)] := by
  simp [dictInsert]

lemma subkeyName_token (name : List Char) (hw : name.all isWordChar = true) :
    subkeyName (String.mk ('$' :: name)) = String.mk name := by
  unfold subkeyName
  show String.mk (stripDollarBraces ('$' :: name)) = String.mk name
  rw [stripDollarBraces_token name hw]

lemma resolveOneKey_missing_raw (rv : RV) (name : List Char) (w : List String) :
    resolveOneKey rv [] ⟨[], w⟩ (String.mk ('$' :: name)) =
      (⟨[], w ++ [warnMsg (subkeyName (String.mk ('$' :: name)))]⟩,
        .ok (String.mk ('$' :: name))) := by
  rfl

/-- Claim C6 (amended): interpolating a single subscript-free reference
token `$name` (word characters) against an empty store and empty
environment returns the token verbatim and emits exactly one diagnostic
naming `name` — proved for every such name, so in particular `"$missing"`
returns `"$missing"` with one diagnostic; whereas a missing-base token that
carries a subscript, such as `"$missing[0]"`, emits its diagnostic and then
raises an uncaught `TypeError` instead of being left verbatim. -/
theorem missing_reference_verbatim_one_diagnostic :
    (∀ (name : List Char) (fuel : Nat),
        name.all isWordChar = true → name ≠ [] →
        replaceVariables [] (fuel + 1) ⟨[], []⟩ (.str (String.mk ('$' :: name))) =
          (⟨[], [warnMsg (String.mk name)]⟩, .ok (String.mk ('$' :: name)))) ∧
    (replaceVariables [] 20 ⟨[], []⟩ (.str "$missing[0]")).1.warns = [warnMsg "missing"] ∧
    (replaceVariables [] 20 ⟨[], []⟩ (.str "$missing[0]")).2 = .error .typeError := by
  refine ⟨?_, rfl, rfl⟩
  intro name fuel hw hne
  have ht : toStringPy (Value.str (String.mk ('$' :: name))) = String.mk ('$' :: name) :=
    toStringPyStr_dollar name
  have hpv : processVarWith (replaceVariablesF [] fuel) [] ⟨[], []⟩
      (String.mk ('$' :: name)) =
      (⟨[], [warnMsg (String.mk name)]⟩,
        .ok (some (.str (String.mk ('$' :: name))))) := by
    unfold processVarWith
    rw [extractBase_word_token name hw hne, extractSubkeys_word_token name hw]
    rw [show resolveSubkeysWith (replaceVariablesF [] fuel) [] ⟨[], []⟩
          [String.mk ('$' :: name)] =
          (⟨[], [warnMsg (subkeyName (String.mk ('$' :: name)))]⟩,
            .ok [String.mk ('$' :: name)]) from rfl]
    rw [subkeyName_token name hw]
    rfl
  show replaceVariablesBody (replaceVariablesF [] fuel) [] ⟨[], []⟩
      (String.mk ('$' :: name)) = _
  unfold replaceVariablesBody
  rw [findTokens_single_token name hw hne]
  unfold processVarsWith
  rw [hpv]
  dsimp only
  rw [show initRepl [String.mk ('$' :: name)] =
        [(String.mk ('$' :: name), Value.str (String.mk ('$' :: name)))] from rfl]
  rw [dictInsert_self]
  dsimp only [processVarsWith, List.foldl]
  rw [ht, pyReplace_self]

/-- Witness for the amended claim C6 at the concrete name `missing`:
interpolating `"$missing"` against an empty store and empty environment
returns `"$missing"` with exactly one diagnostic. -/
theorem missing_reference_verbatim_one_diagnostic_witness :
    ("missing".toList.all isWordChar = true ∧ "missing".toList ≠ []) ∧
    replaceVariables [] 20 ⟨[], []⟩ (.str "$missing") =
      (⟨[], [warnMsg "missing"]⟩, .ok "$missing") := by
  refine ⟨⟨by decide, by decide⟩, ?_⟩
  exact missing_reference_verbatim_one_diagnostic.1 "missing".toList 19
    (by decide) (by decide)


/-- Claim C6, counterexample: diagnostics are emitted once per token
*occurrence*, not once per distinct token — `"$missing $missing"` contains
a single distinct token (the replacement dict has one entry) yet two
diagnostics are emitted, because the warning loop iterates the full
`re.findall` list, duplicates included. -/
theorem missing_reference_warns_per_occurrence :
    ((replaceVariables [] 20 ⟨[], []⟩ (.str "$missing $missing")).1).warns =
        [warnMsg "missing", warnMsg "missing"] ∧
    initRepl (findTokens "$missing $missing") =
        [("$missing", .str "$missing")] ∧
    (replaceVariables [] 20 ⟨[], []⟩ (.str "$missing $missing")).2 =
        .ok "$missing $missing" := by
  exact ⟨rfl, rfl, rfl⟩

/-! ## Claims about the command executor -/

/-- An operating system in which `echo a` succeeds writing `"a\n"`, `foo`
fails with exit code 1 writing `"boom"` to stderr, and everything else
succeeds writing `"b\n"`. -/
def envEchoFail : ExecEnv := fun toks _ =>
  if toks = ["echo", "a"] then ⟨0, "a\n", ""⟩
  else if toks = ["foo"] then ⟨1, "", "boom"⟩
  else ⟨0, "b\n", ""⟩

/-- Claim C1 (exit-status part is a code bug): running the compound command
`"echo a; foo; echo b"` in capture mode against `envEchoFail` aborts right
after the failing sub-command — `echo b` is never spawned — and prints the
failing command with its captured stderr; but the abort happens through
`quit()`, i.e. `SystemExit(None)`, so the process terminates with exit
status 0, not the non-zero status the claim requires. -/
theorem failing_subcommand_aborts_with_exit_zero :
    shellCapture [] 5 Option.none Option.none "/w" envEchoFail
        "echo a; foo; echo b" Option.none =
      ⟨[["echo", "a"], ["foo"]],
       ["\nCommand `['foo']` failed with exit code 1 :\n\nboom"],
       ⟨[], []⟩, .exit 0⟩ := by
  rfl

/-- An operating system whose only command writes `"abc"` — with no
trailing newline — to stdout and succeeds. -/
def envNoNewline : ExecEnv := fun _ _ => ⟨0, "abc", ""⟩

/-- Claim C8, counterexample: captured output that does not end in a
newline is *not* returned unchanged — `p.stdout[:-1]` drops the last
character unconditionally, so the command writing `"abc"` yields `"ab"`. -/
theorem capture_drops_last_char_counterexample :
    (shellCapture [] 5 Option.none Option.none "/w" envNoNewline
        "xyzzy" Option.none).outcome = .ok "ab" ∧ ("ab" : String) ≠ "abc" := by
  exact ⟨rfl, by decide⟩

/-- The accumulation the amended claim C8 describes: for each sub-command
in execution order, take the text the child wrote to stdout, drop its final
character when the text is non-empty, and concatenate. -/
def accumTrimmed (env : ExecEnv) (cwd : String) (tokf : String → List String) :
    List String → String
  | [] => ""
  | c :: rest =>
    (if (env ((tokf c).map toStringPyStr) cwd).out == "" then ""
     else pyDropLast (env ((tokf c).map toStringPyStr) cwd).out) ++
      accumTrimmed env cwd tokf rest

lemma resolveCwd_idem (selfCwd : Option String) (osCwd c : String) :
    resolveCwd selfCwd osCwd (resolveCwd selfCwd osCwd c) =
      resolveCwd selfCwd osCwd c := by
  unfold resolveCwd
  by_cases hc : c == ""
  · simp only [hc, if_true]
    cases selfCwd with
    | none => split <;> rfl
    | some s =>
      by_cases hs : s == ""
      · simp only [hs, if_true]
        split <;> rfl
      · simp only [hs, if_false]
        simp [hs]
  · simp [hc]

lemma execLoop_capture_all_ok (rv : RV) (selfCwd : Option String)
    (osCwd : String) (env : ExecEnv) (tokf : String → List String)
    (cmds : List String) :
    ∀ (cwdv cwd1 : String) (st : St) (output : String)
      (ran : List (List String)) (printed : List String),
      resolveCwd selfCwd osCwd cwdv = cwd1 →
      (∀ c ∈ cmds, shlexSplit c = .ok (tokf c) ∧
          (tokf c).map toStringPyStr ≠ [] ∧
          (env ((tokf c).map toStringPyStr) cwd1).rc = 0) →
      execLoop rv false selfCwd osCwd env true true cmds cwdv st output ran printed =
        ⟨ran ++ cmds.map (fun c => (tokf c).map toStringPyStr), printed, st,
          .ok (output ++ accumTrimmed env cwd1 tokf cmds)⟩ := by
  induction cmds with
  | nil =>
    intro cwdv cwd1 st output ran printed hcwd h
    simp [execLoop, accumTrimmed]
  | cons c rest ih =>
    intro cwdv cwd1 st output ran printed hcwd h
    obtain ⟨hsh, hne, hrc⟩ := h c (List.mem_cons_self c rest)
    have hrest : ∀ c2 ∈ rest, shlexSplit c2 = .ok (tokf c2) ∧
        (tokf c2).map toStringPyStr ≠ [] ∧
        (env ((tokf c2).map toStringPyStr) cwd1).rc = 0 :=
      fun c2 hc2 => h c2 (List.mem_cons_of_mem c hc2)
    unfold execLoop
    rw [hsh, hcwd]
    simp only [Bool.false_eq_true, if_false]
    rcases htk : (tokf c).map toStringPyStr with _ | ⟨t, ts⟩
    · exact absurd htk hne
    · rw [htk] at hrc
      dsimp only
      rw [hrc]
      simp only [beq_self_eq_true, if_true]
      rw [ih cwd1 cwd1 st _ (ran ++ [t :: ts]) printed
            (by rw [← hcwd]; exact resolveCwd_idem selfCwd osCwd cwdv) hrest]
      simp only [accumTrimmed, htk, List.map_cons]
      by_cases hout : (env (t :: ts) cwd1).out == ""
      · simp [hout, List.append_assoc]
      · simp [hout, List.append_assoc, String.append_assoc]

/-- Claim C8 (amended): in capture mode, when every sub-command of the call
succeeds (exit code 0), the executor removes the *final character* of each
sub-command's non-empty captured output — whether or not that character is
a newline — accumulates the results across the sub-commands in execution
order, and returns the accumulated text.  `tokf` names the token list
`shlex.split` produces for each sub-command. -/
theorem capture_accumulates_outputs_dropping_last_char
    (envv : EnvVars) (fuel : Nat) (selfCwd : Option String) (osCwd : String)
    (env : ExecEnv) (tokf : String → List String) (command : String)
    (cwdArg : Option String)
    (h : ∀ c ∈ pySplitChar ';' command, shlexSplit c = .ok (tokf c) ∧
        (tokf c).map toStringPyStr ≠ [] ∧
        (env ((tokf c).map toStringPyStr)
          (resolveCwd selfCwd osCwd (cwdArg.getD ""))).rc = 0) :
    shellCapture envv fuel Option.none selfCwd osCwd env command cwdArg =
      ⟨(pySplitChar ';' command).map (fun c => (tokf c).map toStringPyStr), [],
        ⟨[], []⟩,
        .ok (accumTrimmed env (resolveCwd selfCwd osCwd (cwdArg.getD "")) tokf
          (pySplitChar ';' command))⟩ := by
  unfold shellCapture shellExecute
  have := execLoop_capture_all_ok (replaceVariablesF envv fuel) selfCwd osCwd
    env tokf (pySplitChar ';' command) (cwdArg.getD "")
    (resolveCwd selfCwd osCwd (cwdArg.getD "")) ⟨[], []⟩ "" [] [] rfl h
  simpa using this

/-- An operating system whose every command writes `"hi\n"` and succeeds. -/
def envHi : ExecEnv := fun _ _ => ⟨0, "hi\n", ""⟩

/-- Tokenisation of the two sub-commands of `"aaa; bbb"`. -/
def tokfAB : String → List String := fun c => if c == "aaa" then ["aaa"] else ["bbb"]

/-- Witness for the amended claim C8 at the concrete command `"aaa; bbb"`:
both sub-commands succeed writing `"hi\n"`, and the captured result is
`"hihi"`. -/
theorem capture_accumulates_outputs_witness :
    shellCapture [] 5 Option.none Option.none "/w" envHi "aaa; bbb" Option.none =
      ⟨[["aaa"], ["bbb"]], [], ⟨[], []⟩, .ok "hihi"⟩ := by
  exact capture_accumulates_outputs_dropping_last_char [] 5 Option.none "/w"
    envHi tokfAB "aaa; bbb" Option.none
    (by
      intro c hc
      have hsplit : pySplitChar ';' "aaa; bbb" = ["aaa", " bbb"] := rfl
      rw [hsplit] at hc
      fin_cases hc
      · exact ⟨rfl, by decide, rfl⟩
      · exact ⟨rfl, by decide, rfl⟩)

/-! ## Claims about the dispatcher and argument binder -/

/-- A target declaring parameters `(name, verbose=False)`. -/
def specNV : ArgSpec := ⟨["name", "verbose"], [Value.bool false], false, false⟩

/-- Claim C2, counterexample: binding `(name, verbose=False)` against the
tokens `["-verbose", "name=demo"]` does *not* produce `verbose=True`. -/
theorem verbose_flag_binding_counterexample :
    (makefileBind specNV ["-verbose", "name=demo"]).map
        (fun bc => dictGet bc.args "verbose") ≠ .ok (some (Value.bool true)) := by
  intro hcontra
  have hval : (makefileBind specNV ["-verbose", "name=demo"]).map
      (fun bc => dictGet bc.args "verbose") = .ok (some (Value.bool false)) := rfl
  rw [hval] at hcontra
  simp at hcontra

/-- Claim C2 (amended): the token `-verbose` is parsed into the independent
single-letter flags `v,e,r,b,o,s` — never into a flag named `verbose` — so
the binder finds no flag matching the declared parameter and binds the
declared default: the bound arguments are `name="demo"`, `verbose=False`. -/
theorem verbose_flag_binds_declared_default :
    makefileBind specNV ["-verbose", "name=demo"] =
      .ok ⟨[("name", .str "demo"), ("verbose", .bool false)], false, [], []⟩ ∧
    (parseFlags ["-verbose"]).1 = ["v", "e", "r", "b", "o", "s"] := by
  exact ⟨rfl, rfl⟩

lemma dictGet_filter_ne (l : List (String × Value)) (x y : String)
    (hxy : y ≠ x) :
    dictGet (l.filter (fun p => !(p.1 == x))) y = dictGet l y := by
  induction l with
  | nil => rfl
  | cons p rest ih =>
    rcases p with ⟨k, v⟩
    rw [List.filter_cons]
    by_cases hk : (k == x) = true
    · have hkx : k = x := by simpa using hk
      have hky : (k == y) = false := by
        subst hkx
        simp only [beq_eq_false_iff_ne]
        exact fun heq => hxy heq.symm
      simp only [hk, Bool.not_true, Bool.false_eq_true, if_false, ih]
      rw [show dictGet ((k, v) :: rest) y =
            (match dictGet rest y with
             | some w => some w
             | Option.none => if k == y then some v else Option.none) from rfl]
      cases hgr : dictGet rest y with
      | some w => simp
      | none => simp [hky]
    · simp only [hk, Bool.not_false, if_true]
      rw [show dictGet ((k, v) :: (rest.filter (fun p => !(p.1 == x)))) y =
            (match dictGet (rest.filter (fun p => !(p.1 == x))) y with
             | some w => some w
             | Option.none => if k == y then some v else Option.none) from rfl]
      rw [ih]
      rfl

lemma dictGet_filter_self (l : List (String × Value)) (x : String) :
    dictGet (l.filter (fun p => !(p.1 == x))) x = Option.none := by
  induction l with
  | nil => rfl
  | cons p rest ih =>
    rcases p with ⟨k, v⟩
    rw [List.filter_cons]
    by_cases hk : (k == x) = true
    · simp only [hk, Bool.not_true, Bool.false_eq_true, if_false]
      exact ih
    · simp only [hk, Bool.not_false, if_true]
      rw [show dictGet ((k, v) :: (rest.filter (fun p => !(p.1 == x)))) x =
            (match dictGet (rest.filter (fun p => !(p.1 == x))) x with
             | some w => some w
             | Option.none => if k == x then some v else Option.none) from rfl]
      rw [ih]
      simp [hk]

lemma pyDictGet_filter_null (l : List (String × Value)) (x : String)
    (hl : dictGet l x = some Value.none) :
    ∀ y, pyDictGet l y = pyDictGet (l.filter (fun p => !(p.1 == x))) y := by
  intro y
  by_cases hxy : y = x
  · subst hxy
    unfold pyDictGet
    rw [hl, dictGet_filter_self]
  · unfold pyDictGet
    rw [dictGet_filter_ne l x y hxy]

lemma bindLoop_congr (kwargs kwargs' : List (String × Value))
    (flags : List String) (defaults : List Value) (nd : Nat)
    (h : ∀ y, pyDictGet kwargs y = pyDictGet kwargs' y) :
    ∀ (i : Nat) (args : List String),
      bindLoop kwargs flags defaults nd i args =
        bindLoop kwargs' flags defaults nd i args := by
  intro i args
  induction args generalizing i with
  | nil => rfl
  | cons a rest ih =>
    simp only [bindLoop, ih (i + 1), h a]

lemma filter_args_of_filter_key (l : List (String × Value))
    (args : List String) (x : String) (hx : args.contains x = true) :
    (l.filter (fun p => !(p.1 == x))).filter (fun p => !(args.contains p.1)) =
      l.filter (fun p => !(args.contains p.1)) := by
  induction l with
  | nil => rfl
  | cons p rest ih =>
    rw [List.filter_cons]
    by_cases hk : (p.1 == x) = true
    · have hkx : p.1 = x := by simpa using hk
      have hmem : p.1 ∈ args := by
        have := hx
        rw [← hkx] at this
        simpa using this
      simp only [hk, Bool.not_true, Bool.false_eq_true, if_false, ih]
      rw [List.filter_cons]
      simp [hmem]
    · simp only [hk, Bool.not_false, if_true]
      rw [List.filter_cons, List.filter_cons, ih]

/-- Claim C10: a supplied keyword token whose value decoded to JSON `null`
is treated by the binder exactly as if the keyword had not been supplied at
all — the whole bound call (named bindings, error flag, and both variadic
passthroughs) is identical to the one computed with every `x` entry removed
from the kwargs dict, so the binder falls through to a matching flag, then
the declared default, and otherwise leaves the parameter unsatisfied. -/
theorem null_keyword_equals_absent_keyword (spec : ArgSpec)
    (posArgs : List String) (kwargs : List (String × Value))
    (flags : List String) (x : String)
    (hx : spec.args.contains x = true)
    (hk : dictGet kwargs x = some Value.none) :
    bindCall spec posArgs kwargs flags =
      bindCall spec posArgs (kwargs.filter (fun p => !(p.1 == x))) flags := by
  unfold bindCall
  dsimp only
  rw [bindLoop_congr kwargs (kwargs.filter (fun p => !(p.1 == x))) flags
      spec.defaults (spec.args.length - spec.defaults.length)
      (pyDictGet_filter_null kwargs x hk)]
  by_cases hkw : spec.keywords
  · simp only [hkw, if_true, filter_args_of_filter_key kwargs spec.args x hx]
  · simp only [hkw, Bool.false_eq_true, if_false]

/-- Witness for claim C10: the target `(x)` with the supplied kwargs
`{x: null}` binds exactly as with no kwargs at all. -/
theorem null_keyword_equals_absent_keyword_witness :
    (["x"] : List String).contains "x" = true ∧
    dictGet [("x", Value.none)] "x" = some Value.none ∧
    bindCall ⟨["x"], [], false, false⟩ [] [("x", Value.none)] [] =
      bindCall ⟨["x"], [], false, false⟩ []
        (([("x", Value.none)] : List (String × Value)).filter
          (fun p => !(p.1 == "x"))) [] := by
  exact ⟨rfl, rfl,
    null_keyword_equals_absent_keyword ⟨["x"], [], false, false⟩ [] [("x", Value.none)] [] "x" rfl rfl⟩
